import Mathlib

/-!
Verification of the referential-integrity state model of a local image-pair
comparison tool.  The definitions below are a shallow embedding of the
reducer module (`appState.ts`): `ensureStateConsistency` (the Consistency
Normalizer), `appReducer` (the State Transition Engine) and their helpers.

Modelling conventions:
* JS strings become `String`; `GroupId | null` becomes `Option String`.
* `Group.order` is `Int` (a JS number used as an integer).
* `Map` built by `forEach(set)` has last-entry-wins lookup; it is embedded as
  `lookupComparison` / `lookupImage`, which prefer later list entries.
* `Array.find` is first-match (`List.find?`).
* JS string truthiness (`if (s)`) is `s ≠ ""` on strings and pattern matching
  plus `≠ ""` on nullable strings.
* The nondeterministic parts (`crypto.randomUUID` inside `generateId`,
  `new Date()`) are threaded explicitly through a `Fresh` parameter; a call
  `generateId('group')` becomes `generateId "group" f.u`.
-/

namespace ICT

/-- `ImageEntry` from `src/types/index.ts`. -/
structure ImageEntry where
  id : String
  groupId : String
  fileName : String
  handleKey : String
  addedAt : String
deriving DecidableEq, Repr

/-- `Group` from `src/types/index.ts`. -/
structure Group where
  id : String
  name : String
  createdAt : String
  order : Int
deriving DecidableEq, Repr

/-- `GroupComparisonState` from `src/types/index.ts`. -/
structure GroupComparisonState where
  groupId : String
  imageAId : Option String
  imageBId : Option String
deriving DecidableEq, Repr

/-- `PersistedState` from `src/types/index.ts`. -/
structure PersistedState where
  groups : List Group
  images : List ImageEntry
  comparisons : List GroupComparisonState
  lastActiveGroupId : Option String
deriving DecidableEq, Repr

/-- The explicit source of nondeterminism: `u` stands for the random part of
`generateId`, `now` for `new Date().toISOString()`. -/
structure Fresh where
  u : String
  now : String
deriving DecidableEq, Repr

/-- JS `String.prototype.trim`: strip whitespace from both ends. -/
def trimJS (s : String) : String :=
  ⟨((s.data.dropWhile Char.isWhitespace).reverse.dropWhile Char.isWhitespace).reverse⟩

def DEFAULT_GROUP_NAME : String := "默认组"

def UNTITLED_GROUP_NAME : String := "未命名组"

/-- `generateId(prefix)` produces `prefix + '-' + unique`; the unique part is
passed in explicitly. -/
def generateId (tag : String) (unique : String) : String :=
  tag ++ "-" ++ unique

/-- `createDefaultState` from `appState.ts`. -/
def createDefaultState (f : Fresh) : PersistedState :=
  let gid := generateId "group" f.u
  { groups := [{ id := gid, name := DEFAULT_GROUP_NAME, createdAt := f.now, order := 0 }]
    images := []
    comparisons := [{ groupId := gid, imageAId := none, imageBId := none }]
    lastActiveGroupId := some gid }

/-- Lookup in a JS `Map` built by `comparisons.forEach(c => m.set(c.groupId, c))`:
the last entry with the key wins. -/
def lookupComparison : List GroupComparisonState → String → Option GroupComparisonState
  | [], _ => none
  | c :: rest, k =>
    match lookupComparison rest k with
    | some r => some r
    | none => if c.groupId = k then some c else none

/-- Lookup in a JS `Map` built by `images.forEach(i => m.set(i.id, i))`:
the last entry with the key wins. -/
def lookupImage : List ImageEntry → String → Option ImageEntry
  | [], _ => none
  | i :: rest, k =>
    match lookupImage rest k with
    | some r => some r
    | none => if i.id = k then some i else none

/-- One step of `ensureComparisons`: reuse the stored comparison for a group id
or synthesize an empty one. -/
def comparisonFor (comparisons : List GroupComparisonState) (gid : String) :
    GroupComparisonState :=
  match lookupComparison comparisons gid with
  | some found => found
  | none => { groupId := gid, imageAId := none, imageBId := none }

/-- `ensureComparisons` from `appState.ts`. -/
def ensureComparisons (groups : List Group) (comparisons : List GroupComparisonState) :
    List GroupComparisonState :=
  groups.map (fun g => comparisonFor comparisons g.id)

/-- The per-slot validation of `ensureComparisonImages`: a slot survives iff it
is a truthy id whose image (via the last-wins map) belongs to the same group. -/
def validSlot (images : List ImageEntry) (gid : String) : Option String → Option String
  | none => none
  | some s =>
    if s = "" then none
    else
      match lookupImage images s with
      | some img => if img.groupId = gid then some s else none
      | none => none

/-- The body of the `ensureComparisonImages` map. -/
def fixComparison (images : List ImageEntry) (item : GroupComparisonState) :
    GroupComparisonState :=
  let va := validSlot images item.groupId item.imageAId
  let vb := validSlot images item.groupId item.imageBId
  if va = item.imageAId ∧ vb = item.imageBId then item
  else { item with imageAId := va, imageBId := vb }

/-- `ensureComparisonImages` from `appState.ts`. -/
def ensureComparisonImages (comparisons : List GroupComparisonState)
    (images : List ImageEntry) : List GroupComparisonState :=
  comparisons.map (fixComparison images)

/-- `pickActiveGroupId` from `appState.ts`.  `if (candidate && groups.some(...))`
keeps a truthy candidate that matches a known group, else falls back to
`groups[0]?.id ?? null`. -/
def pickActiveGroupId (candidate : Option String) (groups : List Group) : Option String :=
  match candidate with
  | some c =>
    if c ≠ "" ∧ (∃ g ∈ groups, g.id = c) then some c
    else (groups.head?).map (fun g => g.id)
  | none => (groups.head?).map (fun g => g.id)

/-- `ensureStateConsistency` from `appState.ts` (the Consistency Normalizer). -/
def ensureStateConsistency (f : Fresh) (s : PersistedState) : PersistedState :=
  if s.groups = [] then createDefaultState f
  else
    let normalizedImages :=
      s.images.filter (fun img => decide (img.groupId ∈ s.groups.map (fun g => g.id)))
    { groups := s.groups
      images := normalizedImages
      comparisons := ensureComparisonImages (ensureComparisons s.groups s.comparisons)
        normalizedImages
      lastActiveGroupId := pickActiveGroupId s.lastActiveGroupId s.groups }

/-- `createGroup` from `appState.ts`. -/
def createGroup (f : Fresh) (s : PersistedState) (pname : Option String)
    (pnow : Option String) : PersistedState :=
  let now := pnow.getD f.now
  let trimmedName := trimJS (pname.getD "")
  let name := if trimmedName = "" then UNTITLED_GROUP_NAME else trimmedName
  let nextOrder := (s.groups.map (fun g => g.order + 1)).foldl max 0
  let newGroup : Group :=
    { id := generateId "group" f.u, name := name, createdAt := now, order := nextOrder }
  ensureStateConsistency f
    { s with
      groups := s.groups ++ [newGroup]
      comparisons :=
        s.comparisons ++ [{ groupId := newGroup.id, imageAId := none, imageBId := none }]
      lastActiveGroupId := some newGroup.id }

/-- `renameGroup` from `appState.ts`. -/
def renameGroup (s : PersistedState) (gid : String) (pname : String) : PersistedState :=
  let trimmedName := trimJS pname
  if trimmedName = "" then s
  else if ∃ g ∈ s.groups, g.id = gid then
    { s with
      groups := s.groups.map (fun g =>
        if g.id = gid then { g with name := trimmedName } else g) }
  else s

/-- `deleteGroup` from `appState.ts`. -/
def deleteGroup (f : Fresh) (s : PersistedState) (gid : String) : PersistedState :=
  let remainingGroups := s.groups.filter (fun g => decide (g.id ≠ gid))
  if remainingGroups.length = s.groups.length then s
  else
    let remainingImages := s.images.filter (fun i => decide (i.groupId ≠ gid))
    let remainingComparisons := s.comparisons.filter (fun c => decide (c.groupId ≠ gid))
    let nextActiveGroupId :=
      if s.lastActiveGroupId = some gid then
        pickActiveGroupId ((remainingGroups.head?).map (fun g => g.id)) remainingGroups
      else s.lastActiveGroupId
    ensureStateConsistency f
      { s with
        groups := remainingGroups
        images := remainingImages
        comparisons := remainingComparisons
        lastActiveGroupId := nextActiveGroupId }

/-- The `payload.images.forEach` loop of `addImages`: keep entries of the target
group whose id is not yet known, growing the known-id set as entries are
accepted. -/
def dedupImages (target : String) (known : List String) :
    List ImageEntry → List ImageEntry
  | [] => []
  | img :: rest =>
    if img.groupId = target ∧ img.id ∉ known then
      img :: dedupImages target (img.id :: known) rest
    else dedupImages target known rest

/-- `addImages` from `appState.ts`. -/
def addImages (f : Fresh) (s : PersistedState) (target : String)
    (entries : List ImageEntry) : PersistedState :=
  if (¬ ∃ g ∈ s.groups, g.id = target) ∨ entries = [] then s
  else
    let validImages := dedupImages target (s.images.map (fun i => i.id)) entries
    if validImages = [] then s
    else ensureStateConsistency f { s with images := s.images ++ validImages }

/-- The `comparisons.map` body of `removeImage`: clear slots of the removed
image inside its own group. -/
def clearRemoved (targetGroupId : String) (imageId : String)
    (c : GroupComparisonState) : GroupComparisonState :=
  if c.groupId ≠ targetGroupId then c
  else if c.imageAId = some imageId ∨ c.imageBId = some imageId then
    { c with
      imageAId := if c.imageAId = some imageId then none else c.imageAId
      imageBId := if c.imageBId = some imageId then none else c.imageBId }
  else c

/-- `removeImage` from `appState.ts`. -/
def removeImage (f : Fresh) (s : PersistedState) (imageId : String) : PersistedState :=
  match s.images.find? (fun i => decide (i.id = imageId)) with
  | none => s
  | some target =>
    ensureStateConsistency f
      { s with
        images := s.images.filter (fun i => decide (i.id ≠ imageId))
        comparisons := s.comparisons.map (clearRemoved target.groupId imageId) }

/-- The two comparison slots. -/
inductive Slot where
  | A
  | B
deriving DecidableEq, Repr

def getSlot (c : GroupComparisonState) : Slot → Option String
  | Slot.A => c.imageAId
  | Slot.B => c.imageBId

def setSlotVal (c : GroupComparisonState) (slot : Slot) (v : Option String) :
    GroupComparisonState :=
  match slot with
  | Slot.A => { c with imageAId := v }
  | Slot.B => { c with imageBId := v }

/-- The `comparisons.map((item, index) => ...)` of `setImageSlot`: only the
first comparison whose `groupId` matches is (possibly) rewritten. -/
def setSlotGo (gid : String) (slot : Slot) (v : Option String) :
    List GroupComparisonState → List GroupComparisonState
  | [] => []
  | c :: rest =>
    if c.groupId = gid then
      (if getSlot c slot = v then c else setSlotVal c slot v) :: rest
    else c :: setSlotGo gid slot v rest

/-- The validity gate of `setImageSlot`: `if (imageId) { ... }` rejects a
truthy id whose first-found image is missing or in another group.  An empty
string is falsy in JS and skips the gate entirely. -/
def slotBlocked (s : PersistedState) (gid : String) : Option String → Prop
  | none => False
  | some i =>
    i ≠ "" ∧
      ((s.images.find? (fun img => decide (img.id = i))).all
        (fun img => decide (img.groupId ≠ gid))) = true

instance (s : PersistedState) (gid : String) :
    (v : Option String) → Decidable (slotBlocked s gid v)
  | none => isFalse (fun h => h)
  | some i =>
    inferInstanceAs (Decidable (i ≠ "" ∧
      ((s.images.find? (fun img => decide (img.id = i))).all
        (fun img => decide (img.groupId ≠ gid))) = true))

/-- `setImageSlot` from `appState.ts`. -/
def setImageSlot (s : PersistedState) (gid : String) (slot : Slot)
    (imageId : Option String) : PersistedState :=
  if ¬ ∃ c ∈ s.comparisons, c.groupId = gid then s
  else if slotBlocked s gid imageId then s
  else { s with comparisons := setSlotGo gid slot imageId s.comparisons }

/-- `AppAction` from `appState.ts`; `unknown` stands for any unrecognized
action hitting the reducer's `default` branch. -/
inductive AppAction where
  | hydrate (payload : PersistedState)
  | setActiveGroup (payload : Option String)
  | replaceState (payload : PersistedState)
  | createGroup (name : Option String) (now : Option String)
  | renameGroup (id : String) (name : String)
  | deleteGroup (id : String)
  | addImages (groupId : String) (images : List ImageEntry)
  | removeImage (imageId : String)
  | setImageA (groupId : String) (imageId : Option String)
  | setImageB (groupId : String) (imageId : Option String)
  | unknown
deriving DecidableEq, Repr

/-- `appReducer` from `appState.ts` (the State Transition Engine). -/
def appReducer (f : Fresh) (s : PersistedState) : AppAction → PersistedState
  | AppAction.hydrate payload => ensureStateConsistency f payload
  | AppAction.replaceState payload => ensureStateConsistency f payload
  | AppAction.createGroup name now => createGroup f s name now
  | AppAction.renameGroup id name => renameGroup s id name
  | AppAction.deleteGroup id => deleteGroup f s id
  | AppAction.addImages groupId images => addImages f s groupId images
  | AppAction.removeImage imageId => removeImage f s imageId
  | AppAction.setImageA groupId imageId => setImageSlot s groupId Slot.A imageId
  | AppAction.setImageB groupId imageId => setImageSlot s groupId Slot.B imageId
  | AppAction.setActiveGroup payload =>
    let activeGroupId := pickActiveGroupId payload s.groups
    if activeGroupId = s.lastActiveGroupId then s
    else { s with lastActiveGroupId := activeGroupId }
  | AppAction.unknown => s

/-! ## The invariants I1–I6 of the specification (§3) -/

/-- I1: at least one Group exists. -/
def Inv1 (s : PersistedState) : Prop := s.groups ≠ []

/-- I2: every `ImageEntry.groupId` references an existing Group. -/
def Inv2 (s : PersistedState) : Prop :=
  ∀ img ∈ s.images, img.groupId ∈ s.groups.map (fun g => g.id)

/-- I3: exactly one ComparisonState per Group, and none for unknown groups. -/
def Inv3 (s : PersistedState) : Prop :=
  (∀ gid ∈ s.groups.map (fun g => g.id),
    (s.comparisons.map (fun c => c.groupId)).count gid = 1) ∧
  ∀ c ∈ s.comparisons, c.groupId ∈ s.groups.map (fun g => g.id)

/-- A comparison slot is null or references an image of the given group. -/
def SlotOk (images : List ImageEntry) (gid : String) (v : Option String) : Prop :=
  v = none ∨ ∃ img ∈ images, v = some img.id ∧ img.groupId = gid

/-- I4: non-null comparison slots reference an existing image of the same group. -/
def Inv4 (s : PersistedState) : Prop :=
  ∀ c ∈ s.comparisons,
    SlotOk s.images c.groupId c.imageAId ∧ SlotOk s.images c.groupId c.imageBId

/-- I5: `lastActiveGroupId` references an existing Group. -/
def Inv5 (s : PersistedState) : Prop :=
  ∃ gid ∈ s.groups.map (fun g => g.id), s.lastActiveGroupId = some gid

/-- I6: group ids and image ids are unique within their collections. -/
def Inv6 (s : PersistedState) : Prop :=
  (s.groups.map (fun g => g.id)).Nodup ∧ (s.images.map (fun i => i.id)).Nodup

/-- The conjunction of all six invariants of §3. -/
def Invariants (s : PersistedState) : Prop :=
  Inv1 s ∧ Inv2 s ∧ Inv3 s ∧ Inv4 s ∧ Inv5 s ∧ Inv6 s

instance (s : PersistedState) : Decidable (Invariants s) := by
  unfold Invariants Inv1 Inv2 Inv3 Inv4 Inv5 Inv6 SlotOk
  infer_instance

/-- Modelled from the spec: "the first Group by (order, createdAt) ascending"
(§4.2 step 5), used to compare the spec's active-group fallback with the
code's. -/
def firstGroupByOrderCreatedAt (gs : List Group) : Option Group :=
  gs.foldl
    (fun acc g =>
      match acc with
      | none => some g
      | some b =>
        if g.order < b.order ∨ (g.order = b.order ∧ g.createdAt < b.createdAt) then some g
        else some b)
    none

/-! ## Helper lemmas -/

theorem lookupComparison_eq_some {cs : List GroupComparisonState} {k : String}
    {c : GroupComparisonState} (h : lookupComparison cs k = some c) :
    c ∈ cs ∧ c.groupId = k := by
  induction cs with
  | nil => simp [lookupComparison] at h
  | cons c0 rest ih =>
    rw [lookupComparison] at h
    cases hr : lookupComparison rest k with
    | some r =>
      rw [hr] at h
      injection h with h'
      subst h'
      obtain ⟨hm, hk⟩ := ih hr
      exact ⟨List.mem_cons_of_mem _ hm, hk⟩
    | none =>
      rw [hr] at h
      by_cases hg : c0.groupId = k
      · rw [if_pos hg] at h
        cases h
        exact ⟨List.mem_cons_self _ _, hg⟩
      · rw [if_neg hg] at h
        cases h

theorem lookupComparison_isSome {cs : List GroupComparisonState} {k : String}
    (h : ∃ c ∈ cs, c.groupId = k) : (lookupComparison cs k).isSome := by
  induction cs with
  | nil => simp at h
  | cons c0 rest ih =>
    rw [lookupComparison]
    cases hr : lookupComparison rest k with
    | some r => simp
    | none =>
      obtain ⟨c, hc, hk⟩ := h
      rcases List.mem_cons.1 hc with rfl | hmem
      · simp [hk]
      · have := ih ⟨c, hmem, hk⟩
        rw [hr] at this
        simp at this

theorem lookupComparison_map {h : GroupComparisonState → GroupComparisonState}
    (hh : ∀ c, (h c).groupId = c.groupId) (cs : List GroupComparisonState) (k : String) :
    lookupComparison (cs.map h) k = (lookupComparison cs k).map h := by
  induction cs with
  | nil => simp [lookupComparison]
  | cons c0 rest ih =>
    rw [List.map_cons, lookupComparison, lookupComparison, ih]
    cases lookupComparison rest k with
    | some r => simp
    | none =>
      simp only [Option.map_none]
      rw [hh c0]
      by_cases hg : c0.groupId = k
      · simp [hg]
      · simp [hg]

theorem lookupComparison_keyed {K : String → GroupComparisonState}
    (hK : ∀ x, (K x).groupId = x) (gs : List Group) (k : String) :
    lookupComparison (gs.map (fun g => K g.id)) k =
      if k ∈ gs.map (fun g => g.id) then some (K k) else none := by
  induction gs with
  | nil => simp [lookupComparison]
  | cons g rest ih =>
    rw [List.map_cons, lookupComparison, ih]
    by_cases hmem : k ∈ rest.map (fun g => g.id)
    · simp [hmem]
    · rw [if_neg hmem]
      by_cases hg : g.id = k
      · subst hg
        simp [hK]
      · have hnm : ¬ k ∈ (g :: rest).map (fun g => g.id) := by
          simp only [List.map_cons, List.mem_cons]
          rintro (h1 | h2)
          · exact hg h1.symm
          · exact hmem h2
        rw [if_neg hnm]
        simp [hK, hg]

theorem lookupImage_eq_some {l : List ImageEntry} {k : String} {i : ImageEntry}
    (h : lookupImage l k = some i) : i ∈ l ∧ i.id = k := by
  induction l with
  | nil => simp [lookupImage] at h
  | cons i0 rest ih =>
    rw [lookupImage] at h
    cases hr : lookupImage rest k with
    | some r =>
      rw [hr] at h
      injection h with h'
      subst h'
      obtain ⟨hm, hk⟩ := ih hr
      exact ⟨List.mem_cons_of_mem _ hm, hk⟩
    | none =>
      rw [hr] at h
      by_cases hg : i0.id = k
      · rw [if_pos hg] at h
        cases h
        exact ⟨List.mem_cons_self _ _, hg⟩
      · rw [if_neg hg] at h
        cases h

/-- With unique image ids, the last-wins lookup returns the unique entry. -/
theorem lookupImage_nodup {l : List ImageEntry} (hn : (l.map (fun i => i.id)).Nodup)
    {t : ImageEntry} (ht : t ∈ l) (hk : t.id = k) : lookupImage l k = some t := by
  induction l with
  | nil => simp at ht
  | cons i0 rest ih =>
    rw [List.map_cons, List.nodup_cons] at hn
    rw [lookupImage]
    rcases List.mem_cons.1 ht with rfl | hmem
    · cases hr : lookupImage rest k with
      | some r =>
        obtain ⟨hm, hk'⟩ := lookupImage_eq_some hr
        exact absurd (hk ▸ hk' ▸ List.mem_map_of_mem (fun i => i.id) hm) hn.1
      | none => simp [hk]
    · rw [ih hn.2 hmem]

theorem find_image_nodup {l : List ImageEntry} (hn : (l.map (fun i => i.id)).Nodup)
    {t : ImageEntry} (ht : t ∈ l) (hk : t.id = k) :
    l.find? (fun i => decide (i.id = k)) = some t := by
  induction l with
  | nil => simp at ht
  | cons i0 rest ih =>
    rw [List.map_cons, List.nodup_cons] at hn
    rcases List.mem_cons.1 ht with rfl | hmem
    · simp [List.find?_cons, hk]
    · rw [List.find?_cons]
      have hne : ¬ i0.id = k := by
        intro h
        exact hn.1 (h ▸ hk ▸ List.mem_map_of_mem (fun i => i.id) hmem)
      simp only [hne, decide_eq_false_iff_not.mpr hne]
      exact ih hn.2 hmem

theorem validSlot_slotOk (images : List ImageEntry) (gid : String) (v : Option String) :
    SlotOk images gid (validSlot images gid v) := by
  cases v with
  | none => exact Or.inl rfl
  | some s =>
    rw [validSlot]
    by_cases hz : s = ""
    · simp [hz, SlotOk]
    · rw [if_neg hz]
      cases hl : lookupImage images s with
      | some img =>
        obtain ⟨hm, hid⟩ := lookupImage_eq_some hl
        by_cases hg : img.groupId = gid
        · refine Or.inr ⟨img, hm, ?_, hg⟩
          simp [hg, hid]
        · refine Or.inl ?_
          simp [hg]
      | none => exact Or.inl rfl

theorem validSlot_of_slotOk {images : List ImageEntry} {gid : String} {v : Option String}
    (hn : (images.map (fun i => i.id)).Nodup) (hz : v ≠ some "")
    (hok : SlotOk images gid v) : validSlot images gid v = v := by
  rcases hok with rfl | ⟨img, hm, rfl, hg⟩
  · rfl
  · have hne : img.id ≠ "" := fun h => hz (by rw [h])
    rw [validSlot, if_neg hne, lookupImage_nodup hn hm rfl]
    simp [hg]

theorem validSlot_idem (images : List ImageEntry) (gid : String) (v : Option String) :
    validSlot images gid (validSlot images gid v) = validSlot images gid v := by
  cases v with
  | none => rfl
  | some s =>
    by_cases hz : s = ""
    · simp [hz, validSlot]
    · cases hl : lookupImage images s with
      | some img =>
        by_cases hg : img.groupId = gid
        · have h1 : validSlot images gid (some s) = some s := by
            rw [validSlot, if_neg hz, hl]
            simp [hg]
          rw [h1, h1]
        · have h1 : validSlot images gid (some s) = none := by
            rw [validSlot, if_neg hz, hl]
            simp [hg]
          rw [h1]
          rfl
      | none =>
        have h1 : validSlot images gid (some s) = none := by
          rw [validSlot, if_neg hz, hl]
        rw [h1]
        rfl

theorem fixComparison_eq (images : List ImageEntry) (c : GroupComparisonState) :
    fixComparison images c =
      { groupId := c.groupId
        imageAId := validSlot images c.groupId c.imageAId
        imageBId := validSlot images c.groupId c.imageBId } := by
  rw [fixComparison]
  by_cases h : validSlot images c.groupId c.imageAId = c.imageAId ∧
      validSlot images c.groupId c.imageBId = c.imageBId
  · rw [if_pos h]
    obtain ⟨h1, h2⟩ := h
    cases c
    simp_all
  · rw [if_neg h]

theorem fixComparison_groupId (images : List ImageEntry) (c : GroupComparisonState) :
    (fixComparison images c).groupId = c.groupId := by
  rw [fixComparison_eq]

theorem fixComparison_idem (images : List ImageEntry) (c : GroupComparisonState) :
    fixComparison images (fixComparison images c) = fixComparison images c := by
  rw [fixComparison_eq images c, fixComparison_eq]
  simp [validSlot_idem]

theorem fixComparison_of_ok {images : List ImageEntry} {c : GroupComparisonState}
    (hn : (images.map (fun i => i.id)).Nodup) (hz : "" ∉ images.map (fun i => i.id))
    (ha : SlotOk images c.groupId c.imageAId) (hb : SlotOk images c.groupId c.imageBId) :
    fixComparison images c = c := by
  have hz' : ∀ v, SlotOk images c.groupId v → v ≠ some "" := by
    rintro v (rfl | ⟨img, hm, rfl, _⟩) h
    · cases h
    · rw [Option.some_inj] at h
      exact hz (h ▸ List.mem_map_of_mem (fun i => i.id) hm)
  rw [fixComparison_eq, validSlot_of_slotOk hn (hz' _ ha) ha,
    validSlot_of_slotOk hn (hz' _ hb) hb]

theorem comparisonFor_groupId (cs : List GroupComparisonState) (gid : String) :
    (comparisonFor cs gid).groupId = gid := by
  rw [comparisonFor]
  cases h : lookupComparison cs gid with
  | some c => exact (lookupComparison_eq_some h).2
  | none => rfl

theorem ensureComparisons_map_groupId (gs : List Group) (cs : List GroupComparisonState) :
    (ensureComparisons gs cs).map (fun c => c.groupId) = gs.map (fun g => g.id) := by
  rw [ensureComparisons, List.map_map]
  exact List.map_congr_left (fun g _ => comparisonFor_groupId cs g.id)

theorem ensureComparisonImages_map_groupId (cs : List GroupComparisonState)
    (images : List ImageEntry) :
    (ensureComparisonImages cs images).map (fun c => c.groupId) =
      cs.map (fun c => c.groupId) := by
  rw [ensureComparisonImages, List.map_map]
  exact List.map_congr_left (fun c _ => fixComparison_groupId images c)

/-- The normalizer on a snapshot with at least one group, in closed form. -/
theorem normalize_of_ne {s : PersistedState} (f : Fresh) (h : s.groups ≠ []) :
    ensureStateConsistency f s =
      { groups := s.groups
        images := s.images.filter
          (fun img => decide (img.groupId ∈ s.groups.map (fun g => g.id)))
        comparisons := s.groups.map (fun g =>
          fixComparison
            (s.images.filter
              (fun img => decide (img.groupId ∈ s.groups.map (fun g => g.id))))
            (comparisonFor s.comparisons g.id))
        lastActiveGroupId := pickActiveGroupId s.lastActiveGroupId s.groups } := by
  rw [ensureStateConsistency, if_neg h]
  simp only [ensureComparisonImages, ensureComparisons, List.map_map]
  rfl

theorem normalize_groups (f : Fresh) {s : PersistedState} (h : s.groups ≠ []) :
    (ensureStateConsistency f s).groups = s.groups := by
  rw [normalize_of_ne f h]

theorem normalize_active (f : Fresh) {s : PersistedState} (h : s.groups ≠ []) :
    (ensureStateConsistency f s).lastActiveGroupId =
      pickActiveGroupId s.lastActiveGroupId s.groups := by
  rw [normalize_of_ne f h]

theorem normalize_images (f : Fresh) {s : PersistedState} (h : s.groups ≠ []) :
    (ensureStateConsistency f s).images =
      s.images.filter (fun img => decide (img.groupId ∈ s.groups.map (fun g => g.id))) := by
  rw [normalize_of_ne f h]

theorem normalize_comparisons (f : Fresh) {s : PersistedState} (h : s.groups ≠ []) :
    (ensureStateConsistency f s).comparisons =
      s.groups.map (fun g =>
        fixComparison
          (s.images.filter (fun img => decide (img.groupId ∈ s.groups.map (fun g => g.id))))
          (comparisonFor s.comparisons g.id)) := by
  rw [normalize_of_ne f h]

theorem generateId_ne_empty (u : String) : generateId "group" u ≠ "" := by
  intro h
  have hlen := congrArg String.length h
  rw [generateId, String.length_append, String.length_append] at hlen
  have h5 : ("group" : String).length = 5 := rfl
  have h1 : ("-" : String).length = 1 := rfl
  have h0 : ("" : String).length = 0 := rfl
  omega

theorem pickActive_mem {gs : List Group} (h : gs ≠ []) (cand : Option String) :
    ∃ gid ∈ gs.map (fun g => g.id), pickActiveGroupId cand gs = some gid := by
  obtain ⟨g0, t, rfl⟩ := List.exists_cons_of_ne_nil h
  have hhead : ((g0 :: t).head?).map (fun g => g.id) = some g0.id := rfl
  cases cand with
  | none => exact ⟨g0.id, by simp, hhead⟩
  | some c =>
    rw [pickActiveGroupId]
    by_cases hc : c ≠ "" ∧ ∃ g ∈ g0 :: t, g.id = c
    · obtain ⟨g, hg, hgc⟩ := hc.2
      exact ⟨c, by rw [if_pos hc]; exact ⟨List.mem_map.mpr ⟨g, hg, hgc⟩, rfl⟩⟩
    · exact ⟨g0.id, by simp, by rw [if_neg hc]; exact hhead⟩

theorem pickActive_head {gs : List Group} (h : gs ≠ []) :
    pickActiveGroupId ((gs.head?).map (fun g => g.id)) gs =
      (gs.head?).map (fun g => g.id) := by
  obtain ⟨g0, t, rfl⟩ := List.exists_cons_of_ne_nil h
  have hhead : (((g0 :: t).head?).map (fun g => g.id)) = some g0.id := rfl
  rw [hhead, pickActiveGroupId]
  by_cases hc : g0.id ≠ "" ∧ ∃ g ∈ g0 :: t, g.id = g0.id
  · rw [if_pos hc]
  · rw [if_neg hc]
    exact hhead

theorem pickActive_idem {gs : List Group} (h : gs ≠ []) (cand : Option String) :
    pickActiveGroupId (pickActiveGroupId cand gs) gs = pickActiveGroupId cand gs := by
  have hfall : ∀ c, (¬ (c ≠ "" ∧ ∃ g ∈ gs, g.id = c)) →
      pickActiveGroupId (some c) gs = (gs.head?).map (fun g => g.id) := by
    intro c hc
    rw [pickActiveGroupId, if_neg hc]
  cases cand with
  | none =>
    have : pickActiveGroupId none gs = (gs.head?).map (fun g => g.id) := rfl
    rw [this, pickActive_head h]
  | some c =>
    by_cases hc : c ≠ "" ∧ ∃ g ∈ gs, g.id = c
    · have hkeep : pickActiveGroupId (some c) gs = some c := by
        rw [pickActiveGroupId, if_pos hc]
      rw [hkeep, hkeep]
    · rw [hfall c hc, pickActive_head h]

theorem nodup_map_filter {α β : Type} (fn : α → β) (p : α → Bool) {l : List α}
    (h : (l.map fn).Nodup) : ((l.filter p).map fn).Nodup :=
  h.sublist ((List.filter_sublist l).map fn)

theorem default_invariants (f : Fresh) : Invariants (createDefaultState f) := by
  refine ⟨?_, ?_, ⟨?_, ?_⟩, ?_, ?_, ?_, ?_⟩ <;>
    simp [createDefaultState, Inv1, Inv2, Inv3, Inv4, Inv5, Inv6, SlotOk]

/-- The Consistency Normalizer establishes all six invariants, provided the
raw snapshot's group ids and image ids are already duplicate-free (the
normalizer never deduplicates ids). -/
theorem normalize_invariants (f : Fresh) (s : PersistedState)
    (hg : (s.groups.map (fun g => g.id)).Nodup)
    (hi : (s.images.map (fun i => i.id)).Nodup) :
    Invariants (ensureStateConsistency f s) := by
  by_cases h : s.groups = []
  · rw [ensureStateConsistency, if_pos h]
    exact default_invariants f
  · rw [normalize_of_ne f h]
    have hcomp : (s.groups.map (fun g =>
        fixComparison
          (s.images.filter
            (fun img => decide (img.groupId ∈ s.groups.map (fun g => g.id))))
          (comparisonFor s.comparisons g.id))).map (fun c => c.groupId) =
        s.groups.map (fun g => g.id) := by
      rw [List.map_map]
      exact List.map_congr_left (fun g _ => by
        simp only [Function.comp]
        rw [fixComparison_groupId, comparisonFor_groupId])
    refine ⟨h, ?_, ⟨?_, ?_⟩, ?_, ?_, hg, ?_⟩
    · intro img hmem
      have := (List.mem_filter.1 hmem).2
      exact of_decide_eq_true this
    · intro gid hgid
      rw [hcomp]
      exact List.count_eq_one_of_mem hg hgid
    · intro c hc
      obtain ⟨g, hgmem, rfl⟩ := List.mem_map.1 hc
      rw [fixComparison_groupId, comparisonFor_groupId]
      exact List.mem_map_of_mem (fun g => g.id) hgmem
    · intro c hc
      obtain ⟨g, hgmem, rfl⟩ := List.mem_map.1 hc
      rw [fixComparison_eq]
      constructor
      · have := validSlot_slotOk
          (s.images.filter
            (fun img => decide (img.groupId ∈ s.groups.map (fun g => g.id))))
          (comparisonFor s.comparisons g.id).groupId
          (comparisonFor s.comparisons g.id).imageAId
        exact this
      · have := validSlot_slotOk
          (s.images.filter
            (fun img => decide (img.groupId ∈ s.groups.map (fun g => g.id))))
          (comparisonFor s.comparisons g.id).groupId
          (comparisonFor s.comparisons g.id).imageBId
        exact this
    · exact pickActive_mem h s.lastActiveGroupId
    · exact nodup_map_filter (fun i : ImageEntry => i.id) _ hi

theorem comparisonFor_of_lookup {cs : List GroupComparisonState} {gid : String}
    {c : GroupComparisonState} (h : lookupComparison cs gid = some c) :
    comparisonFor cs gid = c := by
  rw [comparisonFor, h]

/-- A snapshot all of whose components are fixed points of the normalizer's
repair passes is returned unchanged. -/
theorem normalize_eq_self {s : PersistedState} (f : Fresh) (h : s.groups ≠ [])
    (h2 : s.images.filter
      (fun img => decide (img.groupId ∈ s.groups.map (fun g => g.id))) = s.images)
    (h3 : s.groups.map (fun g =>
      fixComparison s.images (comparisonFor s.comparisons g.id)) = s.comparisons)
    (h4 : pickActiveGroupId s.lastActiveGroupId s.groups = s.lastActiveGroupId) :
    ensureStateConsistency f s = s := by
  rw [normalize_of_ne f h, h2, h3, h4]

theorem normalize_default (f1 f2 : Fresh) :
    ensureStateConsistency f2 (createDefaultState f1) = createDefaultState f1 := by
  have hne : (createDefaultState f1).groups ≠ [] := by simp [createDefaultState]
  refine normalize_eq_self f2 hne rfl ?_ ?_
  · simp [createDefaultState, comparisonFor, lookupComparison, fixComparison, validSlot]
  · simp [createDefaultState, pickActiveGroupId, generateId_ne_empty]

/-- The Consistency Normalizer is idempotent, whatever fresh identifiers the
two runs draw. -/
theorem normalize_idem (f1 f2 : Fresh) (s : PersistedState) :
    ensureStateConsistency f2 (ensureStateConsistency f1 s) = ensureStateConsistency f1 s := by
  by_cases h : s.groups = []
  · have h1 : ensureStateConsistency f1 s = createDefaultState f1 := by
      rw [ensureStateConsistency, if_pos h]
    rw [h1, normalize_default]
  · rw [normalize_of_ne f1 h]
    refine normalize_eq_self f2 h ?_ ?_ ?_
    · refine List.filter_eq_self.mpr (fun img hm => ?_)
      exact (List.mem_filter.1 hm).2
    · refine List.map_congr_left (fun g hg => ?_)
      have hK : ∀ x, ((fun x => fixComparison
          (s.images.filter
            (fun img => decide (img.groupId ∈ s.groups.map (fun g => g.id))))
          (comparisonFor s.comparisons x)) x).groupId = x := by
        intro x
        rw [fixComparison_groupId, comparisonFor_groupId]
      have hmem : g.id ∈ s.groups.map (fun g => g.id) :=
        List.mem_map_of_mem (fun g => g.id) hg
      have hlook := lookupComparison_keyed hK s.groups g.id
      rw [if_pos hmem] at hlook
      rw [comparisonFor_of_lookup hlook]
      exact fixComparison_idem _ _
    · exact pickActive_idem h s.lastActiveGroupId

/-! ## Preservation of the invariants by the Transition Engine -/

theorem invariants_transport {s t : PersistedState} (h : Invariants s)
    (hg : t.groups.map (fun g => g.id) = s.groups.map (fun g => g.id))
    (hi : t.images = s.images) (hc : t.comparisons = s.comparisons)
    (ha : t.lastActiveGroupId = s.lastActiveGroupId) :
    Invariants t := by
  obtain ⟨h1, h2, h3, h4, h5, h6⟩ := h
  refine ⟨?_, ?_, ?_, ?_, ?_, ?_⟩
  · intro hnil
    have hmap : s.groups.map (fun g => g.id) = [] := by
      rw [← hg, hnil, List.map_nil]
    exact h1 (List.map_eq_nil_iff.1 hmap)
  · unfold Inv2
    rw [hi, hg]
    exact h2
  · unfold Inv3
    rw [hc, hg]
    exact h3
  · unfold Inv4
    rw [hc, hi]
    exact h4
  · unfold Inv5
    rw [ha, hg]
    exact h5
  · unfold Inv6
    rw [hi, hg]
    exact h6

theorem rename_preserves {s : PersistedState} (hs : Invariants s) (gid pname : String) :
    Invariants (renameGroup s gid pname) := by
  rw [renameGroup]
  by_cases hb : trimJS pname = ""
  · rw [if_pos hb]
    exact hs
  · rw [if_neg hb]
    by_cases hex : ∃ g ∈ s.groups, g.id = gid
    · rw [if_pos hex]
      refine invariants_transport hs ?_ rfl rfl rfl
      rw [List.map_map]
      refine List.map_congr_left (fun g _ => ?_)
      by_cases h : g.id = gid <;> simp [h]
    · rw [if_neg hex]
      exact hs

theorem dedupImages_groupId (target : String) (known : List String)
    (entries : List ImageEntry) :
    ∀ img ∈ dedupImages target known entries, img.groupId = target := by
  induction entries generalizing known with
  | nil => simp [dedupImages]
  | cons e rest ih =>
    intro img hm
    rw [dedupImages] at hm
    by_cases hc : e.groupId = target ∧ e.id ∉ known
    · rw [if_pos hc] at hm
      rcases List.mem_cons.1 hm with rfl | hm'
      · exact hc.1
      · exact ih _ img hm'
    · rw [if_neg hc] at hm
      exact ih _ img hm

theorem dedupImages_nodup (target : String) (known : List String)
    (entries : List ImageEntry) :
    ((dedupImages target known entries).map (fun i => i.id)).Nodup ∧
      ∀ i ∈ (dedupImages target known entries).map (fun i => i.id), i ∉ known := by
  induction entries generalizing known with
  | nil => simp [dedupImages]
  | cons e rest ih =>
    rw [dedupImages]
    by_cases hc : e.groupId = target ∧ e.id ∉ known
    · rw [if_pos hc]
      obtain ⟨ihn, ihk⟩ := ih (e.id :: known)
      refine ⟨List.nodup_cons.2 ⟨?_, ihn⟩, ?_⟩
      · intro hmem
        exact (ihk e.id hmem) (List.mem_cons_self _ _)
      · rw [List.map_cons]
        intro i hi hik
        rcases List.mem_cons.1 hi with rfl | hi'
        · exact hc.2 hik
        · exact (ihk i hi') (List.mem_cons_of_mem _ hik)
    · rw [if_neg hc]
      exact ih known

theorem deleteGroup_preserves (f : Fresh) {s : PersistedState} (hs : Invariants s)
    (gid : String) : Invariants (deleteGroup f s gid) := by
  rw [deleteGroup]
  by_cases hlen : (s.groups.filter (fun g => decide (g.id ≠ gid))).length = s.groups.length
  · rw [if_pos hlen]
    exact hs
  · rw [if_neg hlen]
    exact normalize_invariants f _
      (nodup_map_filter (fun g : Group => g.id) _ hs.2.2.2.2.2.1)
      (nodup_map_filter (fun i : ImageEntry => i.id) _ hs.2.2.2.2.2.2)

theorem addImages_preserves (f : Fresh) {s : PersistedState} (hs : Invariants s)
    (target : String) (entries : List ImageEntry) :
    Invariants (addImages f s target entries) := by
  rw [addImages]
  by_cases hno : (¬ ∃ g ∈ s.groups, g.id = target) ∨ entries = []
  · rw [if_pos hno]
    exact hs
  · rw [if_neg hno]
    by_cases hv : dedupImages target (s.images.map (fun i => i.id)) entries = []
    · rw [if_pos hv]
      exact hs
    · rw [if_neg hv]
      refine normalize_invariants f _ hs.2.2.2.2.2.1 ?_
      obtain ⟨hn, hk⟩ := dedupImages_nodup target (s.images.map (fun i => i.id)) entries
      rw [List.map_append, List.nodup_append]
      exact ⟨hs.2.2.2.2.2.2, hn, fun a ha ha' => hk a ha' ha⟩

theorem createGroup_preserves (f : Fresh) {s : PersistedState} (hs : Invariants s)
    (hf : generateId "group" f.u ∉ s.groups.map (fun g => g.id))
    (pname pnow : Option String) : Invariants (createGroup f s pname pnow) := by
  rw [createGroup]
  refine normalize_invariants f _ ?_ hs.2.2.2.2.2.2
  rw [List.map_append, List.nodup_append]
  refine ⟨hs.2.2.2.2.2.1, List.nodup_singleton _, ?_⟩
  intro a ha ha'
  rcases List.mem_singleton.1 ha' with rfl
  exact hf ha

theorem setSlotVal_groupId (c : GroupComparisonState) (slot : Slot) (v : Option String) :
    (setSlotVal c slot v).groupId = c.groupId := by
  cases slot <;> rfl

theorem setSlotGo_map_groupId (gid : String) (slot : Slot) (v : Option String)
    (cs : List GroupComparisonState) :
    (setSlotGo gid slot v cs).map (fun c => c.groupId) = cs.map (fun c => c.groupId) := by
  induction cs with
  | nil => rfl
  | cons c rest ih =>
    rw [setSlotGo]
    by_cases h : c.groupId = gid
    · rw [if_pos h, List.map_cons, List.map_cons]
      by_cases h2 : getSlot c slot = v
      · rw [if_pos h2]
      · rw [if_neg h2, setSlotVal_groupId]
    · rw [if_neg h, List.map_cons, List.map_cons, ih]

theorem setSlotGo_mem {gid : String} {slot : Slot} {v : Option String}
    {cs : List GroupComparisonState} :
    ∀ x ∈ setSlotGo gid slot v cs,
      x ∈ cs ∨ ∃ c ∈ cs, c.groupId = gid ∧ x = setSlotVal c slot v := by
  induction cs with
  | nil => simp [setSlotGo]
  | cons c rest ih =>
    intro x hx
    rw [setSlotGo] at hx
    by_cases h : c.groupId = gid
    · rw [if_pos h] at hx
      rcases List.mem_cons.1 hx with rfl | hx'
      · by_cases h2 : getSlot c slot = v
        · rw [if_pos h2]
          exact Or.inl (List.mem_cons_self _ _)
        · rw [if_neg h2]
          exact Or.inr ⟨c, List.mem_cons_self _ _, h, rfl⟩
      · exact Or.inl (List.mem_cons_of_mem _ hx')
    · rw [if_neg h] at hx
      rcases List.mem_cons.1 hx with rfl | hx'
      · exact Or.inl (List.mem_cons_self _ _)
      · rcases ih x hx' with hm | ⟨c', hc', hcg, hcv⟩
        · exact Or.inl (List.mem_cons_of_mem _ hm)
        · exact Or.inr ⟨c', List.mem_cons_of_mem _ hc', hcg, hcv⟩

theorem setSlot_preserves {s : PersistedState} (hs : Invariants s) (gid : String)
    (slot : Slot) {v : Option String} (hv : v ≠ some "") :
    Invariants (setImageSlot s gid slot v) := by
  rw [setImageSlot]
  by_cases h1 : ¬ ∃ c ∈ s.comparisons, c.groupId = gid
  · rw [if_pos h1]
    exact hs
  · rw [if_neg h1]
    by_cases h2 : slotBlocked s gid v
    · rw [if_pos h2]
      exact hs
    · rw [if_neg h2]
      have hok : SlotOk s.images gid v := by
        cases v with
        | none => exact Or.inl rfl
        | some i =>
          have hi : i ≠ "" := fun hh => hv (by rw [hh])
          rw [slotBlocked] at h2
          have hall : ¬ ((s.images.find? (fun img => decide (img.id = i))).all
              (fun img => decide (img.groupId ≠ gid))) = true := fun hh => h2 ⟨hi, hh⟩
          cases hf : s.images.find? (fun img => decide (img.id = i)) with
          | none =>
            rw [hf] at hall
            exact absurd rfl hall
          | some img =>
            rw [hf] at hall
            have hp : decide (img.groupId ≠ gid) = false := by
              cases hd : decide (img.groupId ≠ gid) with
              | false => rfl
              | true => exact absurd (by rw [Option.all_some, hd]) hall
            have hgid : img.groupId = gid := by
              have := of_decide_eq_false hp
              exact not_not.1 this
            have hpred := List.find?_some hf
            have hid : img.id = i := by simpa using hpred
            exact Or.inr ⟨img, List.mem_of_find?_eq_some hf, by rw [hid], hgid⟩
      obtain ⟨i1, i2, i3, i4, i5, i6⟩ := hs
      refine ⟨i1, i2, ⟨?_, ?_⟩, ?_, i5, i6⟩
      · intro gid' hgid'
        rw [setSlotGo_map_groupId]
        exact i3.1 gid' hgid'
      · intro c hc
        rcases setSlotGo_mem c hc with hm | ⟨c', hc', hcg, rfl⟩
        · exact i3.2 c hm
        · rw [setSlotVal_groupId]
          exact i3.2 c' hc'
      · intro c hc
        rcases setSlotGo_mem c hc with hm | ⟨c', hc', hcg, rfl⟩
        · exact i4 c hm
        · have hga := (i4 c' hc').1
          have hgb := (i4 c' hc').2
          have hval : SlotOk s.images (setSlotVal c' slot v).groupId v := by
            rw [setSlotVal_groupId, hcg]
            exact hok
          cases slot with
          | A =>
            refine ⟨hval, ?_⟩
            rw [setSlotVal_groupId]
            exact hgb
          | B =>
            refine ⟨?_, hval⟩
            rw [setSlotVal_groupId]
            exact hga

theorem removeImage_preserves (f : Fresh) {s : PersistedState} (hs : Invariants s)
    (imageId : String) : Invariants (removeImage f s imageId) := by
  unfold removeImage
  cases hf : s.images.find? (fun i => decide (i.id = imageId)) with
  | none => exact hs
  | some target =>
    exact normalize_invariants f _ hs.2.2.2.2.2.1
      (nodup_map_filter (fun i : ImageEntry => i.id) _ hs.2.2.2.2.2.2)

/-- The side conditions under which one reducer step preserves the invariants:
hydration payloads are duplicate-free, a generated group id is fresh (the
Identifier Generator contract of §4.1), and slot writes do not use the
empty-string image id (which JS truthiness would let through unvalidated). -/
def ActionOk (f : Fresh) (s : PersistedState) : AppAction → Prop
  | AppAction.hydrate p =>
    (p.groups.map (fun g => g.id)).Nodup ∧ (p.images.map (fun i => i.id)).Nodup
  | AppAction.replaceState p =>
    (p.groups.map (fun g => g.id)).Nodup ∧ (p.images.map (fun i => i.id)).Nodup
  | AppAction.createGroup _ _ => generateId "group" f.u ∉ s.groups.map (fun g => g.id)
  | AppAction.setImageA _ i => i ≠ some ""
  | AppAction.setImageB _ i => i ≠ some ""
  | _ => True

instance (f : Fresh) (s : PersistedState) : (a : AppAction) → Decidable (ActionOk f s a)
  | AppAction.hydrate p => inferInstanceAs (Decidable
      ((p.groups.map (fun g : Group => g.id)).Nodup ∧
        (p.images.map (fun i : ImageEntry => i.id)).Nodup))
  | AppAction.replaceState p => inferInstanceAs (Decidable
      ((p.groups.map (fun g : Group => g.id)).Nodup ∧
        (p.images.map (fun i : ImageEntry => i.id)).Nodup))
  | AppAction.createGroup _ _ => inferInstanceAs (Decidable
      (generateId "group" f.u ∉ s.groups.map (fun g : Group => g.id)))
  | AppAction.setImageA _ i => inferInstanceAs (Decidable (i ≠ some ""))
  | AppAction.setImageB _ i => inferInstanceAs (Decidable (i ≠ some ""))
  | AppAction.setActiveGroup _ => isTrue trivial
  | AppAction.renameGroup _ _ => isTrue trivial
  | AppAction.deleteGroup _ => isTrue trivial
  | AppAction.addImages _ _ => isTrue trivial
  | AppAction.removeImage _ => isTrue trivial
  | AppAction.unknown => isTrue trivial

/-- One step of the State Transition Engine preserves the invariants, for every
action satisfying `ActionOk`. -/
theorem appReducer_invariants (f : Fresh) (s : PersistedState) (a : AppAction)
    (hs : Invariants s) (ha : ActionOk f s a) : Invariants (appReducer f s a) := by
  cases a with
  | hydrate p => exact normalize_invariants f p ha.1 ha.2
  | replaceState p => exact normalize_invariants f p ha.1 ha.2
  | createGroup n w => exact createGroup_preserves f hs ha n w
  | renameGroup gid name => exact rename_preserves hs gid name
  | deleteGroup gid => exact deleteGroup_preserves f hs gid
  | addImages g l => exact addImages_preserves f hs g l
  | removeImage i => exact removeImage_preserves f hs i
  | setImageA g i => exact setSlot_preserves hs g Slot.A ha
  | setImageB g i => exact setSlot_preserves hs g Slot.B ha
  | setActiveGroup p =>
    show Invariants
      (if pickActiveGroupId p s.groups = s.lastActiveGroupId then s
        else { s with lastActiveGroupId := pickActiveGroupId p s.groups })
    by_cases he : pickActiveGroupId p s.groups = s.lastActiveGroupId
    · rw [if_pos he]
      exact hs
    · rw [if_neg he]
      obtain ⟨i1, i2, i3, i4, i5, i6⟩ := hs
      obtain ⟨gid', hgm, hp⟩ := pickActive_mem i1 p
      exact ⟨i1, i2, i3, i4, ⟨gid', hgm, hp⟩, i6⟩
  | unknown => exact hs

/-! ## Support lemmas for the per-action behaviour theorems -/

theorem lookupComparison_append_self (l : List GroupComparisonState)
    (c : GroupComparisonState) : lookupComparison (l ++ [c]) c.groupId = some c := by
  induction l with
  | nil =>
    rw [List.nil_append, lookupComparison, lookupComparison]
    simp
  | cons x rest ih =>
    rw [List.cons_append, lookupComparison, ih]

theorem foldl_max_map_add_one (l : List Int) :
    ∀ a : Int, (l.map (fun x => x + 1)).foldl max (a + 1) = (l.foldl max a) + 1 := by
  induction l with
  | nil => intro a; rfl
  | cons x t ih =>
    intro a
    rw [List.map_cons, List.foldl_cons, List.foldl_cons, max_add_add_right, ih]

/-- The order the code actually assigns to a new group: one more than the
maximum of the existing orders and `-1` (so never negative). -/
def nextOrderSpec (gs : List Group) : Int :=
  ((gs.map (fun g => g.order)).foldl max (-1)) + 1

theorem createGroup_order_eq (gs : List Group) :
    (gs.map (fun g => g.order + 1)).foldl max 0 = nextOrderSpec gs := by
  rw [nextOrderSpec, ← foldl_max_map_add_one (gs.map (fun g => g.order)) (-1),
    List.map_map]
  norm_num
  rfl

theorem pickActive_fallback {gs : List Group} {cand : Option String}
    (hno : ∀ gid, cand = some gid → gid ∉ gs.map (fun g => g.id)) :
    pickActiveGroupId cand gs = (gs.head?).map (fun g => g.id) := by
  cases cand with
  | none => rfl
  | some c =>
    rw [pickActiveGroupId, if_neg]
    rintro ⟨-, g, hg, rfl⟩
    exact hno g.id rfl (List.mem_map_of_mem (fun g => g.id) hg)

theorem pickActive_keep {gs : List Group} {c : String} (hz : c ≠ "")
    (hm : c ∈ gs.map (fun g => g.id)) : pickActiveGroupId (some c) gs = some c := by
  obtain ⟨g, hg, hgc⟩ := List.mem_map.1 hm
  rw [pickActiveGroupId, if_pos ⟨hz, g, hg, hgc⟩]

theorem clearRemoved_groupId (tg im : String) (c : GroupComparisonState) :
    (clearRemoved tg im c).groupId = c.groupId := by
  rw [clearRemoved]
  by_cases h1 : c.groupId ≠ tg
  · rw [if_pos h1]
  · rw [if_neg h1]
    by_cases h2 : c.imageAId = some im ∨ c.imageBId = some im
    · rw [if_pos h2]
    · rw [if_neg h2]

theorem clearRemoved_empty (tg im gid : String) :
    clearRemoved tg im { groupId := gid, imageAId := none, imageBId := none } =
      { groupId := gid, imageAId := none, imageBId := none } := by
  simp [clearRemoved]

theorem comparisonFor_map_of {h : GroupComparisonState → GroupComparisonState}
    (hh : ∀ c, (h c).groupId = c.groupId)
    (hfix : ∀ g, h { groupId := g, imageAId := none, imageBId := none } =
      { groupId := g, imageAId := none, imageBId := none })
    (cs : List GroupComparisonState) (gid : String) :
    comparisonFor (cs.map h) gid = h (comparisonFor cs gid) := by
  rw [comparisonFor, comparisonFor, lookupComparison_map hh]
  cases lookupComparison cs gid with
  | some c => rfl
  | none => exact (hfix gid).symm

theorem slotOk_filter_ne {images : List ImageEntry} {gid : String} {v : Option String}
    {imageId : String} (hok : SlotOk images gid v) (hne : v ≠ some imageId) :
    SlotOk (images.filter (fun i => decide (i.id ≠ imageId))) gid v := by
  rcases hok with rfl | ⟨img, hm, rfl, hg⟩
  · exact Or.inl rfl
  · refine Or.inr ⟨img, ?_, rfl, hg⟩
    refine List.mem_filter.2 ⟨hm, ?_⟩
    have : img.id ≠ imageId := fun hh => hne (by rw [hh])
    exact decide_eq_true this

theorem slot_ne_of_group_ne {images : List ImageEntry}
    (hn : (images.map (fun i => i.id)).Nodup) {target : ImageEntry}
    (ht : target ∈ images) {gid : String} (hg : gid ≠ target.groupId)
    {v : Option String} (hok : SlotOk images gid v) : v ≠ some target.id := by
  rcases hok with rfl | ⟨img, hm, rfl, hig⟩
  · exact fun h => by cases h
  · intro h
    rw [Option.some_inj] at h
    have : img = target := List.inj_on_of_nodup_map hn hm ht h
    rw [← this, hig] at hg
    exact hg rfl

theorem exists_comparison_of_count {cs : List GroupComparisonState} {gid : String}
    (h : (cs.map (fun c => c.groupId)).count gid = 1) : ∃ c ∈ cs, c.groupId = gid := by
  have hpos : 0 < (cs.map (fun c => c.groupId)).count gid := by omega
  have hmem : gid ∈ cs.map (fun c => c.groupId) := List.count_pos_iff.1 hpos
  obtain ⟨c, hc, hcg⟩ := List.mem_map.1 hmem
  exact ⟨c, hc, hcg⟩

theorem removeImage_behavior (f : Fresh) (s : PersistedState) (imageId : String)
    (hs : Invariants s) (hz : "" ∉ s.images.map (fun i => i.id)) :
    ((∀ i ∈ s.images, i.id ≠ imageId) → removeImage f s imageId = s) ∧
    (∀ target ∈ s.images, target.id = imageId →
      (removeImage f s imageId).images =
        s.images.filter (fun i => decide (i.id ≠ imageId)) ∧
      (∀ gid ∈ s.groups.map (fun g => g.id),
        lookupComparison (removeImage f s imageId).comparisons gid =
          (lookupComparison s.comparisons gid).map
            (clearRemoved target.groupId imageId))) := by
  obtain ⟨i1, i2, i3, i4, i5, i6⟩ := hs
  constructor
  · intro hno
    unfold removeImage
    rw [List.find?_eq_none.2 (fun i hi => by simpa using hno i hi)]
  · intro target ht htid
    have hf : s.images.find? (fun i => decide (i.id = imageId)) = some target :=
      find_image_nodup i6.2 ht htid
    unfold removeImage
    rw [hf]
    have key : ∀ t : PersistedState, t.groups = s.groups →
        t.images = s.images.filter (fun i => decide (i.id ≠ imageId)) →
        t.comparisons = s.comparisons.map (clearRemoved target.groupId imageId) →
        (ensureStateConsistency f t).images =
          s.images.filter (fun i => decide (i.id ≠ imageId)) ∧
        (∀ gid ∈ s.groups.map (fun g => g.id),
          lookupComparison (ensureStateConsistency f t).comparisons gid =
            (lookupComparison s.comparisons gid).map
              (clearRemoved target.groupId imageId)) := by
      intro t htg hti htc
      have htne : t.groups ≠ [] := by rw [htg]; exact i1
      rw [normalize_of_ne f htne, htg, hti, htc]
      have hIM : (s.images.filter (fun i => decide (i.id ≠ imageId))).filter
          (fun img => decide (img.groupId ∈ s.groups.map (fun g => g.id))) =
          s.images.filter (fun i => decide (i.id ≠ imageId)) := by
        refine List.filter_eq_self.mpr (fun img hm => ?_)
        exact decide_eq_true (i2 img (List.mem_filter.1 hm).1)
      rw [hIM]
      refine ⟨rfl, ?_⟩
      intro gid hgid
      have hclg : ∀ c, (clearRemoved target.groupId imageId c).groupId = c.groupId :=
        clearRemoved_groupId target.groupId imageId
      have hK : ∀ x, ((fun x => fixComparison
          (s.images.filter (fun i => decide (i.id ≠ imageId)))
          (comparisonFor (s.comparisons.map (clearRemoved target.groupId imageId)) x))
            x).groupId = x := by
        intro x
        rw [fixComparison_groupId, comparisonFor_groupId]
      have hlk := lookupComparison_keyed hK s.groups gid
      rw [if_pos hgid] at hlk
      rw [hlk]
      have hex : ∃ c ∈ s.comparisons, c.groupId = gid :=
        exists_comparison_of_count (i3.1 gid hgid)
      obtain ⟨c0, hc0⟩ := Option.isSome_iff_exists.1 (lookupComparison_isSome hex)
      obtain ⟨hc0mem, hc0gid⟩ := lookupComparison_eq_some hc0
      rw [hc0, Option.map_some', comparisonFor_map_of hclg
        (fun g => clearRemoved_empty target.groupId imageId g),
        comparisonFor_of_lookup hc0]
      rw [Option.some_inj]
      have hnodup' : ((s.images.filter
          (fun i => decide (i.id ≠ imageId))).map (fun i => i.id)).Nodup :=
        nodup_map_filter (fun i : ImageEntry => i.id) _ i6.2
      have hz' : "" ∉ (s.images.filter
          (fun i => decide (i.id ≠ imageId))).map (fun i => i.id) := by
        intro hmem
        obtain ⟨img, hm, hid⟩ := List.mem_map.1 hmem
        exact hz (List.mem_map.mpr ⟨img, (List.mem_filter.1 hm).1, hid⟩)
      obtain ⟨hA, hB⟩ := i4 c0 hc0mem
      by_cases hcg : c0.groupId ≠ target.groupId
      · have hcl : clearRemoved target.groupId imageId c0 = c0 := by
          rw [clearRemoved, if_pos hcg]
        have hvA : c0.imageAId ≠ some imageId := by
          rw [← htid]
          exact slot_ne_of_group_ne i6.2 ht hcg hA
        have hvB : c0.imageBId ≠ some imageId := by
          rw [← htid]
          exact slot_ne_of_group_ne i6.2 ht hcg hB
        rw [hcl]
        exact fixComparison_of_ok hnodup' hz' (slotOk_filter_ne hA hvA)
          (slotOk_filter_ne hB hvB)
      · by_cases htrig : c0.imageAId = some imageId ∨ c0.imageBId = some imageId
        · have hcl : clearRemoved target.groupId imageId c0 =
              { groupId := c0.groupId
                imageAId := if c0.imageAId = some imageId then none else c0.imageAId
                imageBId := if c0.imageBId = some imageId then none else c0.imageBId } := by
            rw [clearRemoved, if_neg hcg, if_pos htrig]
          refine fixComparison_of_ok hnodup' hz' ?_ ?_
          · rw [hcl]
            by_cases hA' : c0.imageAId = some imageId
            · rw [if_pos hA']
              exact Or.inl rfl
            · rw [if_neg hA']
              exact slotOk_filter_ne hA hA' 
          · rw [hcl]
            by_cases hB' : c0.imageBId = some imageId
            · rw [if_pos hB']
              exact Or.inl rfl
            · rw [if_neg hB']
              exact slotOk_filter_ne hB hB' 
        · have hcl : clearRemoved target.groupId imageId c0 = c0 := by
            rw [clearRemoved, if_neg hcg, if_neg htrig]
          have hA' : c0.imageAId ≠ some imageId := fun hh => htrig (Or.inl hh)
          have hB' : c0.imageBId ≠ some imageId := fun hh => htrig (Or.inr hh)
          rw [hcl]
          exact fixComparison_of_ok hnodup' hz' (slotOk_filter_ne hA hA')
            (slotOk_filter_ne hB hB')
    exact key _ rfl rfl rfl

theorem setSlotGo_noop {gid : String} {slot : Slot} {v : Option String} :
    ∀ {cs : List GroupComparisonState} {c0 : GroupComparisonState},
      cs.find? (fun c => decide (c.groupId = gid)) = some c0 →
      getSlot c0 slot = v → setSlotGo gid slot v cs = cs := by
  intro cs
  induction cs with
  | nil => intro c0 h; simp at h
  | cons c rest ih =>
    intro c0 h hv
    rw [List.find?_cons] at h
    by_cases hp : c.groupId = gid
    · simp only [decide_eq_true hp] at h
      injection h with h'
      subst h'
      rw [setSlotGo, if_pos hp, if_pos hv]
    · simp only [decide_eq_false_iff_not.mpr hp] at h
      rw [setSlotGo, if_neg hp, ih h hv]

theorem setSlotGo_write {gid : String} {slot : Slot} {v : Option String} :
    ∀ {cs : List GroupComparisonState} {c0 : GroupComparisonState},
      cs.find? (fun c => decide (c.groupId = gid)) = some c0 →
      getSlot c0 slot ≠ v → (cs.map (fun c => c.groupId)).count gid ≤ 1 →
      setSlotGo gid slot v cs =
        cs.map (fun c => if c.groupId = gid then setSlotVal c slot v else c) := by
  intro cs
  induction cs with
  | nil => intro c0 h; simp at h
  | cons c rest ih =>
    intro c0 h hv hcount
    rw [List.find?_cons] at h
    rw [List.map_cons, List.count_cons] at hcount
    by_cases hp : c.groupId = gid
    · simp only [decide_eq_true hp] at h
      injection h with h'
      subst h'
      rw [setSlotGo, if_pos hp, if_neg hv, List.map_cons, if_pos hp]
      have hz : (rest.map (fun c => c.groupId)).count gid = 0 := by
        rw [if_pos (beq_iff_eq.mpr hp)] at hcount
        omega
      have hnomem := List.count_eq_zero.1 hz
      have hrest : rest.map (fun c => if c.groupId = gid then setSlotVal c slot v else c) =
          rest.map id := by
        refine List.map_congr_left (fun c' hc' => ?_)
        have hne : ¬ c'.groupId = gid := by
          intro hh
          exact hnomem (hh ▸ List.mem_map_of_mem (fun c => c.groupId) hc')
        rw [if_neg hne]
        rfl
      rw [hrest, List.map_id]
    · simp only [decide_eq_false_iff_not.mpr hp] at h
      rw [setSlotGo, if_neg hp, List.map_cons, if_neg hp, ih h hv (le_trans (by omega) hcount)]

theorem filter_length_ne {α : Type} (p : α → Bool) {l : List α} {x : α}
    (hx : x ∈ l) (hpx : p x = false) : (l.filter p).length ≠ l.length := by
  intro hlen
  have heq : l.filter p = l := (List.filter_sublist l).eq_of_length hlen
  have hx' : x ∈ l.filter p := heq.symm ▸ hx
  have := (List.mem_filter.1 hx').2
  rw [hpx] at this
  cases this

/-! ## Claims

Concrete snapshots used as inputs to the witnesses and counterexamples. -/

/-- A raw snapshot with duplicate group ids. -/
def dupGroupState : PersistedState :=
  { groups := [{ id := "g", name := "n", createdAt := "t", order := 0 },
               { id := "g", name := "n2", createdAt := "t2", order := 1 }]
    images := []
    comparisons := []
    lastActiveGroupId := none }

/-- A raw snapshot with duplicate image ids inside one valid group. -/
def dupImageState : PersistedState :=
  { groups := [{ id := "g", name := "n", createdAt := "t", order := 0 }]
    images := [{ id := "i", groupId := "g", fileName := "f", handleKey := "h", addedAt := "t" },
               { id := "i", groupId := "g", fileName := "f2", handleKey := "h2", addedAt := "t" }]
    comparisons := [{ groupId := "g", imageAId := none, imageBId := none }]
    lastActiveGroupId := some "g" }

/-- A small invariant-satisfying snapshot. -/
def okState : PersistedState :=
  { groups := [{ id := "g1", name := "n", createdAt := "t", order := 0 }]
    images := []
    comparisons := [{ groupId := "g1", imageAId := none, imageBId := none }]
    lastActiveGroupId := some "g1" }

/-- A raw snapshot whose usable ids are unique but whose lastActiveGroupId
and image references are dangling. -/
def rawState : PersistedState :=
  { groups := [{ id := "g1", name := "n", createdAt := "t", order := 0 }]
    images := [{ id := "i1", groupId := "g1", fileName := "f", handleKey := "h", addedAt := "t" },
               { id := "i2", groupId := "gone", fileName := "f2", handleKey := "h2", addedAt := "t" }]
    comparisons := [{ groupId := "g1", imageAId := some "i2", imageBId := some "i1" }]
    lastActiveGroupId := some "gone" }

/-- C1, counterexample: the claim promises I1–I6 (in particular I6, unique
ids) for every raw snapshot, but the normalizer keeps duplicate group ids
untouched. -/
theorem c1_counterexample :
    ¬ Invariants (ensureStateConsistency ⟨"u", "t"⟩ dupGroupState) := by
  decide

/-- C1 (amended): for every raw snapshot whose group ids and image ids are
already duplicate-free, `ensureStateConsistency` returns a snapshot
satisfying all of I1–I6; the normalizer does not deduplicate ids. -/
theorem c1_normalizer_establishes_invariants (f : Fresh) (s : PersistedState)
    (hg : (s.groups.map (fun g => g.id)).Nodup)
    (hi : (s.images.map (fun i => i.id)).Nodup) :
    Invariants (ensureStateConsistency f s) :=
  normalize_invariants f s hg hi

theorem c1_witness :
    ((rawState.groups.map (fun g => g.id)).Nodup ∧
      (rawState.images.map (fun i => i.id)).Nodup) ∧
    Invariants (ensureStateConsistency ⟨"u", "t"⟩ rawState) :=
  ⟨⟨by decide, by decide⟩,
    c1_normalizer_establishes_invariants ⟨"u", "t"⟩ rawState (by decide) (by decide)⟩

/-- C2, counterexample: hydrating a valid snapshot with a payload containing
duplicate image ids yields a snapshot violating I6, so the reducer does not
preserve the invariants for arbitrary payloads. -/
theorem c2_counterexample :
    Invariants okState ∧
    ¬ Invariants (appReducer ⟨"u", "t"⟩ okState (AppAction.hydrate dupImageState)) := by
  constructor
  · decide
  · decide

/-- C2 (amended): for every invariant-satisfying snapshot and every action
whose payload is well-formed (`ActionOk`: hydrate/replaceState payloads carry
duplicate-free ids, the freshly generated group id is unused, and setImageA/B
is not given the empty-string image id), the reducer returns an
invariant-satisfying snapshot. -/
theorem c2_reducer_preserves_invariants (f : Fresh) (s : PersistedState)
    (a : AppAction) (hs : Invariants s) (ha : ActionOk f s a) :
    Invariants (appReducer f s a) :=
  appReducer_invariants f s a hs ha

theorem c2_witness :
    (Invariants okState ∧ ActionOk ⟨"u", "t"⟩ okState (AppAction.deleteGroup "g1")) ∧
    Invariants (appReducer ⟨"u", "t"⟩ okState (AppAction.deleteGroup "g1")) :=
  ⟨⟨by decide, by decide⟩,
    c2_reducer_preserves_invariants ⟨"u", "t"⟩ okState (AppAction.deleteGroup "g1")
      (by decide) (by decide)⟩

/-- C3 (confirmed): the Consistency Normalizer is idempotent on every raw
snapshot, whatever fresh identifier and timestamp each run draws. -/
theorem c3_normalizer_idempotent (f1 f2 : Fresh) (s : PersistedState) :
    ensureStateConsistency f2 (ensureStateConsistency f1 s) =
      ensureStateConsistency f1 s :=
  normalize_idem f1 f2 s

/-- A raw snapshot whose array order disagrees with the (order, createdAt)
order and whose active group id is dangling. -/
def misorderedState : PersistedState :=
  { groups := [{ id := "gb", name := "b", createdAt := "2024-02", order := 1 },
               { id := "ga", name := "a", createdAt := "2024-01", order := 0 }]
    images := []
    comparisons := [{ groupId := "gb", imageAId := none, imageBId := none },
                    { groupId := "ga", imageAId := none, imageBId := none }]
    lastActiveGroupId := some "missing" }

/-- C4, counterexample: re-resolving the dangling active group picks the first
group of the stored array (`gb`), not the first by (order, createdAt)
ascending (`ga`). -/
theorem c4_counterexample :
    (ensureStateConsistency ⟨"u", "t"⟩ misorderedState).lastActiveGroupId = some "gb" ∧
    (firstGroupByOrderCreatedAt misorderedState.groups).map (fun g => g.id) =
      some "ga" ∧
    some "gb" ≠ (some "ga" : Option String) := by
  refine ⟨by decide, by decide, by decide⟩

/-- C4 (amended): whenever the active group is re-resolved — during
normalization with a dangling `lastActiveGroupId`, and after `deleteGroup`
removes the active group — the new active group is the FIRST GROUP OF THE
STORED ARRAY (of the remaining array for deletion), not the first by
(order, createdAt). -/
theorem c4_active_fallback_is_array_head :
    (∀ (f : Fresh) (s : PersistedState), s.groups ≠ [] →
      (∀ gid, s.lastActiveGroupId = some gid → gid ∉ s.groups.map (fun g => g.id)) →
      (ensureStateConsistency f s).lastActiveGroupId =
        (s.groups.head?).map (fun g => g.id)) ∧
    (∀ (f : Fresh) (s : PersistedState) (gid : String), Invariants s →
      s.lastActiveGroupId = some gid →
      s.groups.filter (fun g => decide (g.id ≠ gid)) ≠ [] →
      (deleteGroup f s gid).lastActiveGroupId =
        ((s.groups.filter (fun g => decide (g.id ≠ gid))).head?).map
          (fun g => g.id)) := by
  constructor
  · intro f s hne hno
    rw [normalize_of_ne f hne]
    exact pickActive_fallback hno
  · intro f s gid hs hact hrem
    obtain ⟨i1, i2, i3, i4, i5, i6⟩ := hs
    obtain ⟨gid', hgm, heq⟩ := i5
    rw [hact, Option.some_inj] at heq
    subst heq
    obtain ⟨g0, hg0, hg0id⟩ := List.mem_map.1 hgm
    have hflen : (s.groups.filter (fun g => decide (g.id ≠ gid))).length ≠
        s.groups.length := by
      refine filter_length_ne _ hg0 ?_
      simp [hg0id]
    simp only [deleteGroup]
    rw [if_neg hflen, if_pos hact, pickActive_head hrem]
    have hrec : ∀ t : PersistedState,
        t.groups = s.groups.filter (fun g => decide (g.id ≠ gid)) →
        t.lastActiveGroupId =
          ((s.groups.filter (fun g => decide (g.id ≠ gid))).head?).map
            (fun g => g.id) →
        (ensureStateConsistency f t).lastActiveGroupId =
          ((s.groups.filter (fun g => decide (g.id ≠ gid))).head?).map
            (fun g => g.id) := by
      intro t htg hta
      have htne : t.groups ≠ [] := by rw [htg]; exact hrem
      rw [normalize_of_ne f htne, htg, hta]
      exact pickActive_head hrem
    exact hrec _ rfl rfl

/-- An invariant-satisfying snapshot with two groups, the second active. -/
def twoGroupState : PersistedState :=
  { groups := [{ id := "g1", name := "n1", createdAt := "t1", order := 0 },
               { id := "g2", name := "n2", createdAt := "t2", order := 1 }]
    images := []
    comparisons := [{ groupId := "g1", imageAId := none, imageBId := none },
                    { groupId := "g2", imageAId := none, imageBId := none }]
    lastActiveGroupId := some "g2" }

theorem c4_witness :
    (ensureStateConsistency ⟨"u", "t"⟩ misorderedState).lastActiveGroupId =
      (misorderedState.groups.head?).map (fun g => g.id) ∧
    (deleteGroup ⟨"u", "t"⟩ twoGroupState "g2").lastActiveGroupId =
      ((twoGroupState.groups.filter (fun g => decide (g.id ≠ "g2"))).head?).map
        (fun g => g.id) := by
  constructor
  · exact c4_active_fallback_is_array_head.1 ⟨"u", "t"⟩ misorderedState
      (by decide) (by decide)
  · exact c4_active_fallback_is_array_head.2 ⟨"u", "t"⟩ twoGroupState "g2"
      (by decide) (by decide) (by decide)

/-- An invariant-satisfying snapshot whose only group has a negative order. -/
def negOrderState : PersistedState :=
  { groups := [{ id := "g1", name := "n", createdAt := "t", order := -2 }]
    images := []
    comparisons := [{ groupId := "g1", imageAId := none, imageBId := none }]
    lastActiveGroupId := some "g1" }

/-- C5, counterexample: with one existing group of order `-2`, the claimed
formula max(existing orders)+1 gives `-1`, but `createGroup` assigns `0`
(the code clamps the next order at zero). -/
theorem c5_counterexample :
    Invariants negOrderState ∧
    (createGroup ⟨"u", "t"⟩ negOrderState none none).groups.map (fun g => g.order) =
      [-2, 0] ∧
    (0 : Int) ≠ -2 + 1 := by
  refine ⟨by decide, by decide, by decide⟩

/-- C5 (amended): `createGroup` appends exactly one group whose order is
`max(existing orders ∪ {-1}) + 1` — i.e. max(existing orders)+1 clamped below
at 0, which is 0 when no groups exist or all orders are negative.  The
supplied name is trimmed, a whitespace-only name becomes the fixed
placeholder, the new group becomes active, and an empty ComparisonState is
added for it. -/
theorem c5_createGroup_behavior (f : Fresh) (s : PersistedState)
    (pname pnow : Option String) :
    (createGroup f s pname pnow).groups = s.groups ++
      [{ id := generateId "group" f.u
         name := if trimJS (pname.getD "") = "" then UNTITLED_GROUP_NAME
                 else trimJS (pname.getD "")
         createdAt := pnow.getD f.now
         order := nextOrderSpec s.groups }] ∧
    (createGroup f s pname pnow).lastActiveGroupId = some (generateId "group" f.u) ∧
    lookupComparison (createGroup f s pname pnow).comparisons
        (generateId "group" f.u) =
      some { groupId := generateId "group" f.u, imageAId := none, imageBId := none } := by
  simp only [createGroup]
  have key : ∀ t : PersistedState,
      t.groups = s.groups ++
        [{ id := generateId "group" f.u
           name := if trimJS (pname.getD "") = "" then UNTITLED_GROUP_NAME
                   else trimJS (pname.getD "")
           createdAt := pnow.getD f.now
           order := (s.groups.map (fun g => g.order + 1)).foldl max 0 }] →
      t.comparisons = s.comparisons ++
        [{ groupId := generateId "group" f.u, imageAId := none, imageBId := none }] →
      t.lastActiveGroupId = some (generateId "group" f.u) →
      (ensureStateConsistency f t).groups = s.groups ++
        [{ id := generateId "group" f.u
           name := if trimJS (pname.getD "") = "" then UNTITLED_GROUP_NAME
                   else trimJS (pname.getD "")
           createdAt := pnow.getD f.now
           order := nextOrderSpec s.groups }] ∧
      (ensureStateConsistency f t).lastActiveGroupId =
        some (generateId "group" f.u) ∧
      lookupComparison (ensureStateConsistency f t).comparisons
          (generateId "group" f.u) =
        some { groupId := generateId "group" f.u, imageAId := none,
               imageBId := none } := by
    intro t htg htc hta
    have htne : t.groups ≠ [] := by
      rw [htg]
      simp
    refine ⟨?_, ?_, ?_⟩
    · rw [normalize_groups f htne, htg, createGroup_order_eq]
    · rw [normalize_active f htne, hta]
      refine pickActive_keep (generateId_ne_empty f.u) ?_
      rw [htg]
      refine List.mem_map.2 ⟨_, List.mem_append_right s.groups (List.mem_singleton.2 rfl), rfl⟩
    · rw [normalize_comparisons f htne, htg, htc, List.map_append, List.map_singleton]
      dsimp only
      have hcf : comparisonFor
          (s.comparisons ++
            [{ groupId := generateId "group" f.u, imageAId := none, imageBId := none }])
          (generateId "group" f.u) =
          { groupId := generateId "group" f.u, imageAId := none, imageBId := none } :=
        comparisonFor_of_lookup (lookupComparison_append_self s.comparisons _)
      rw [hcf, fixComparison_eq]
      exact lookupComparison_append_self _ _
  exact key _ rfl rfl rfl

/-- A raw snapshot containing a group whose name is empty. -/
def emptyNameState : PersistedState :=
  { groups := [{ id := "g", name := "", createdAt := "t", order := 0 }]
    images := []
    comparisons := [{ groupId := "g", imageAId := none, imageBId := none }]
    lastActiveGroupId := some "g" }

/-- C6, counterexample: a group with an empty name passes through the
normalizer unchanged, so not every group has a non-empty name after
normalization. -/
theorem c6_counterexample :
    (ensureStateConsistency ⟨"u", "t"⟩ emptyNameState).groups.map (fun g => g.name) =
      [""] := by
  decide

/-- C6 (amended): the normalizer never repairs names — when any group exists
it returns every group name exactly as given (empty ones included); only the
synthesized default group of an empty snapshot is guaranteed the (non-empty)
fixed default name. -/
theorem c6_normalizer_preserves_names (f : Fresh) (s : PersistedState) :
    (ensureStateConsistency f s).groups.map (fun g => g.name) =
      (if s.groups = [] then [DEFAULT_GROUP_NAME]
        else s.groups.map (fun g => g.name)) ∧
    DEFAULT_GROUP_NAME ≠ "" := by
  constructor
  · by_cases h : s.groups = []
    · rw [if_pos h, ensureStateConsistency, if_pos h]
      rfl
    · rw [if_neg h, normalize_groups f h]
  · decide

/-- C7 (confirmed): `addImages` is a no-op when the target group is unknown or
the entry list is empty; otherwise it appends, in input order, exactly those
entries whose own groupId equals the target and whose id is neither already in
the image collection nor among the ids already accepted earlier in the same
batch (`dedupImages`) — in particular the same id twice in one batch yields
one copy. -/
theorem c7_addImages_behavior (f : Fresh) (s : PersistedState) (target : String)
    (entries : List ImageEntry) (hs : Invariants s) :
    ((target ∉ s.groups.map (fun g => g.id) ∨ entries = []) →
      addImages f s target entries = s) ∧
    (target ∈ s.groups.map (fun g => g.id) →
      (addImages f s target entries).images =
        s.images ++ dedupImages target (s.images.map (fun i => i.id)) entries) := by
  obtain ⟨i1, i2, i3, i4, i5, i6⟩ := hs
  constructor
  · intro h
    rw [addImages, if_pos]
    rcases h with h | h
    · exact Or.inl (fun ⟨g, hg, hgid⟩ => h (List.mem_map.2 ⟨g, hg, hgid⟩))
    · exact Or.inr h
  · intro hmem
    obtain ⟨g, hgm, hgid⟩ := List.mem_map.1 hmem
    by_cases hne : entries = []
    · subst hne
      rw [addImages, if_pos (Or.inr rfl), dedupImages, List.append_nil]
    · rw [addImages, if_neg (by
        rintro (h | h)
        · exact h ⟨g, hgm, hgid⟩
        · exact hne h)]
      by_cases hv : dedupImages target (s.images.map (fun i => i.id)) entries = []
      · rw [if_pos hv, hv, List.append_nil]
      · rw [if_neg hv]
        have hgne : s.groups ≠ [] := i1
        have key : ∀ t : PersistedState, t.groups = s.groups →
            t.images = s.images ++
              dedupImages target (s.images.map (fun i => i.id)) entries →
            (ensureStateConsistency f t).images = s.images ++
              dedupImages target (s.images.map (fun i => i.id)) entries := by
          intro t htg hti
          have htne : t.groups ≠ [] := by rw [htg]; exact hgne
          rw [normalize_images f htne, htg, hti]
          refine List.filter_eq_self.mpr (fun img hm => ?_)
          rcases List.mem_append.1 hm with hm | hm
          · exact decide_eq_true (i2 img hm)
          · refine decide_eq_true ?_
            rw [dedupImages_groupId target _ entries img hm]
            exact hmem
        exact key _ rfl rfl

theorem c7_witness :
    Invariants okState ∧
    ((("gX" : String) ∉ okState.groups.map (fun g => g.id) ∨
        ([] : List ImageEntry) = []) →
      addImages ⟨"u", "t"⟩ okState "gX" [] = okState) ∧
    (("g1" : String) ∈ okState.groups.map (fun g => g.id) →
      (addImages ⟨"u", "t"⟩ okState "g1"
        [{ id := "i1", groupId := "g1", fileName := "f", handleKey := "h", addedAt := "t" },
         { id := "i1", groupId := "g1", fileName := "f", handleKey := "h", addedAt := "t" }]).images =
        okState.images ++ dedupImages "g1" (okState.images.map (fun i => i.id))
          [{ id := "i1", groupId := "g1", fileName := "f", handleKey := "h", addedAt := "t" },
           { id := "i1", groupId := "g1", fileName := "f", handleKey := "h", addedAt := "t" }]) :=
  ⟨by decide,
    (c7_addImages_behavior ⟨"u", "t"⟩ okState "gX" [] (by decide)).1,
    (c7_addImages_behavior ⟨"u", "t"⟩ okState "g1"
      [{ id := "i1", groupId := "g1", fileName := "f", handleKey := "h", addedAt := "t" },
       { id := "i1", groupId := "g1", fileName := "f", handleKey := "h", addedAt := "t" }]
      (by decide)).2⟩

/-- An invariant-satisfying snapshot in which an image legitimately has the
empty string as id and is referenced by a comparison slot. -/
def emptyIdState : PersistedState :=
  { groups := [{ id := "g", name := "n", createdAt := "t", order := 0 }]
    images := [{ id := "", groupId := "g", fileName := "f", handleKey := "h", addedAt := "t" },
               { id := "x", groupId := "g", fileName := "f2", handleKey := "h2", addedAt := "t" }]
    comparisons := [{ groupId := "g", imageAId := some "", imageBId := none }]
    lastActiveGroupId := some "g" }

/-- C8, counterexample: removing image `x` also nulls the slot holding the
empty-string image id `""`, although that slot did not reference the removed
image — the final normalization pass treats `""` as falsy and clears it, so
"all other comparison slots unchanged" fails. -/
theorem c8_counterexample :
    Invariants emptyIdState ∧
    (removeImage ⟨"u", "t"⟩ emptyIdState "x").comparisons.map (fun c => c.imageAId) =
      [none] ∧
    emptyIdState.comparisons.map (fun c => c.imageAId) = [some ""] := by
  refine ⟨by decide, by decide, by decide⟩

/-- C8 (amended): for every invariant-satisfying snapshot none of whose images
has the empty string as id, `removeImage` returns the snapshot unchanged when
the id is unknown; otherwise the images are exactly the old ones minus the
removed entry, and per group the comparison slots are the old ones with
exactly the removed id's occurrences in its own group's state nulled
(`clearRemoved`). -/
theorem c8_removeImage_behavior (f : Fresh) (s : PersistedState) (imageId : String)
    (hs : Invariants s) (hz : "" ∉ s.images.map (fun i => i.id)) :
    ((∀ i ∈ s.images, i.id ≠ imageId) → removeImage f s imageId = s) ∧
    (∀ target ∈ s.images, target.id = imageId →
      (removeImage f s imageId).images =
        s.images.filter (fun i => decide (i.id ≠ imageId)) ∧
      (∀ gid ∈ s.groups.map (fun g => g.id),
        lookupComparison (removeImage f s imageId).comparisons gid =
          (lookupComparison s.comparisons gid).map
            (clearRemoved target.groupId imageId))) :=
  removeImage_behavior f s imageId hs hz

/-- An invariant-satisfying snapshot with two images and both slots set. -/
def removeState : PersistedState :=
  { groups := [{ id := "g1", name := "n", createdAt := "t", order := 0 }]
    images := [{ id := "i1", groupId := "g1", fileName := "f", handleKey := "h", addedAt := "t" },
               { id := "i2", groupId := "g1", fileName := "f2", handleKey := "h2", addedAt := "t" }]
    comparisons := [{ groupId := "g1", imageAId := some "i1", imageBId := some "i1" }]
    lastActiveGroupId := some "g1" }

theorem c8_witness :
    (Invariants removeState ∧ "" ∉ removeState.images.map (fun i => i.id)) ∧
    ((removeImage ⟨"u", "t"⟩ removeState "i1").images =
      removeState.images.filter (fun i => decide (i.id ≠ "i1")) ∧
    (∀ gid ∈ removeState.groups.map (fun g => g.id),
      lookupComparison (removeImage ⟨"u", "t"⟩ removeState "i1").comparisons gid =
        (lookupComparison removeState.comparisons gid).map
          (clearRemoved "g1" "i1"))) :=
  ⟨⟨by decide, by decide⟩,
    (c8_removeImage_behavior ⟨"u", "t"⟩ removeState "i1" (by decide) (by decide)).2
      { id := "i1", groupId := "g1", fileName := "f", handleKey := "h", addedAt := "t" }
      (by decide) (by decide)⟩

/-- C9, counterexample: the claim requires a no-op whenever a non-null imageId
does not resolve to an image of the group, but `setImageA` with the (unknown)
empty-string id writes it into the slot — JS truthiness skips the validation
for `""`. -/
theorem c9_counterexample :
    Invariants okState ∧
    (appReducer ⟨"u", "t"⟩ okState (AppAction.setImageA "g1" (some ""))).comparisons =
      [{ groupId := "g1", imageAId := some "", imageBId := none }] ∧
    appReducer ⟨"u", "t"⟩ okState (AppAction.setImageA "g1" (some "")) ≠ okState := by
  refine ⟨by decide, by decide, by decide⟩

/-- C9 (amended): writing a comparison slot is a no-op (the returned snapshot
equals the input) when the group has no ComparisonState, when a non-null and
NON-EMPTY imageId does not resolve to an image of that group, or when the
slot already holds the value; otherwise exactly the first matching
ComparisonState has the slot written.  An empty-string imageId bypasses the
resolution check (`slotBlocked` is false for it) and is written like any
value. -/
theorem c9_setImageSlot_behavior (s : PersistedState) (gid : String) (slot : Slot)
    (imageId : Option String) (hs : Invariants s) :
    ((∀ c ∈ s.comparisons, c.groupId ≠ gid) → setImageSlot s gid slot imageId = s) ∧
    (∀ i, imageId = some i → i ≠ "" →
      (∀ img ∈ s.images, ¬ (img.id = i ∧ img.groupId = gid)) →
      setImageSlot s gid slot imageId = s) ∧
    (∀ c0, s.comparisons.find? (fun c => decide (c.groupId = gid)) = some c0 →
      ¬ slotBlocked s gid imageId → getSlot c0 slot = imageId →
      setImageSlot s gid slot imageId = s) ∧
    (∀ c0, s.comparisons.find? (fun c => decide (c.groupId = gid)) = some c0 →
      ¬ slotBlocked s gid imageId → getSlot c0 slot ≠ imageId →
      setImageSlot s gid slot imageId =
        { s with comparisons :=
            s.comparisons.map (fun c =>
              if c.groupId = gid then setSlotVal c slot imageId else c) }) := by
  obtain ⟨i1, i2, i3, i4, i5, i6⟩ := hs
  refine ⟨?_, ?_, ?_, ?_⟩
  · intro h
    rw [setImageSlot, if_pos]
    rintro ⟨c, hc, hcg⟩
    exact h c hc hcg
  · rintro i rfl hiz hno
    have hb : slotBlocked s gid (some i) := by
      refine ⟨hiz, ?_⟩
      cases hf : s.images.find? (fun img => decide (img.id = i)) with
      | none => rfl
      | some img =>
        have hmem := List.mem_of_find?_eq_some hf
        have hid : img.id = i := by simpa using List.find?_some hf
        rw [Option.all_some]
        exact decide_eq_true (fun hgid => hno img hmem ⟨hid, hgid⟩)
    rw [setImageSlot]
    by_cases hex : ¬ ∃ c ∈ s.comparisons, c.groupId = gid
    · rw [if_pos hex]
    · rw [if_neg hex, if_pos hb]
  · intro c0 hf hnb hv
    have hex : ∃ c ∈ s.comparisons, c.groupId = gid :=
      ⟨c0, List.mem_of_find?_eq_some hf, by simpa using List.find?_some hf⟩
    rw [setImageSlot, if_neg (not_not_intro hex), if_neg hnb, setSlotGo_noop hf hv]
  · intro c0 hf hnb hv
    have hcg : c0.groupId = gid := by simpa using List.find?_some hf
    have hex : ∃ c ∈ s.comparisons, c.groupId = gid :=
      ⟨c0, List.mem_of_find?_eq_some hf, hcg⟩
    have hcnt : (s.comparisons.map (fun c => c.groupId)).count gid ≤ 1 := by
      have hmem : gid ∈ s.groups.map (fun g => g.id) :=
        hcg ▸ i3.2 c0 (List.mem_of_find?_eq_some hf)
      exact le_of_eq (i3.1 gid hmem)
    rw [setImageSlot, if_neg (not_not_intro hex), if_neg hnb, setSlotGo_write hf hv hcnt]

/-- An invariant-satisfying snapshot with one image and an empty comparison. -/
def setSlotState : PersistedState :=
  { groups := [{ id := "g1", name := "n", createdAt := "t", order := 0 }]
    images := [{ id := "i1", groupId := "g1", fileName := "f", handleKey := "h", addedAt := "t" }]
    comparisons := [{ groupId := "g1", imageAId := none, imageBId := none }]
    lastActiveGroupId := some "g1" }

theorem c9_witness :
    Invariants setSlotState ∧
    setImageSlot setSlotState "g1" Slot.A (some "i1") =
      { setSlotState with comparisons :=
          setSlotState.comparisons.map (fun c =>
            if c.groupId = "g1" then setSlotVal c Slot.A (some "i1") else c) } :=
  ⟨by decide,
    (c9_setImageSlot_behavior setSlotState "g1" Slot.A (some "i1") (by decide)).2.2.2
      { groupId := "g1", imageAId := none, imageBId := none }
      (by decide) (by decide) (by decide)⟩

/-- C10 (confirmed): for every raw snapshot with a non-empty groups
collection, the normalizer returns the groups array exactly as given — same
groups, same order, all fields unmodified. -/
theorem c10_normalizer_preserves_groups (f : Fresh) (s : PersistedState)
    (h : s.groups ≠ []) : (ensureStateConsistency f s).groups = s.groups :=
  normalize_groups f h

theorem c10_witness :
    rawState.groups ≠ [] ∧
    (ensureStateConsistency ⟨"u", "t"⟩ rawState).groups = rawState.groups :=
  ⟨by decide, c10_normalizer_preserves_groups ⟨"u", "t"⟩ rawState (by decide)⟩

end ICT
